import Mathlib

/-!
# yados: connection-tracking HTTP server and middleware chain

A shallow embedding of `server/server.go` and `server/mux_server.go`.

* `RegisterHandlers` is the loop of `server.go`, over an arbitrary handler type.
* `MuxServer` is the record of `mux_server.go`.  The fields that the code reads or
  writes are kept; the goroutines of the Go runtime are sequentialised: every
  function runs to its return (or to the point where it blocks), and what other
  goroutines do while `Close` waits is an explicit list of events.
* The calls the code makes on objects it does not own (`c.Close()` on a connection,
  `Close()` on the TCP listener, `net.Listen`, `tls.LoadX509KeyPair`, `http.Serve`,
  `http.Redirect`, the base handler) are recorded in traces or in counters.
-/

namespace Yados

/-! ## server.go -/

/-- The type `HandlerFunc` of `server.go`: a transform from handler to handler. -/
abbrev HandlerFunc (H : Type) := H → H

/-- The loop of `RegisterHandlers`: `f = r; for _, hFn := range handlerFns { f = hFn(f) }`. -/
def RegisterHandlers {H : Type} (r : H) : List (HandlerFunc H) → H
  | [] => r
  | hFn :: handlerFns => RegisterHandlers (hFn r) handlerFns

/-- The nested application of the specification, `mₙ(…(m₁(base))…)`, written by
recursion on the number of middlewares: with no middleware it is the base handler, and
with `m₁ … mₙ mₙ₊₁` it is `mₙ₊₁` applied to the nesting of `m₁ … mₙ`. -/
def nested {H : Type} (base : H) (ms : List (HandlerFunc H)) : H :=
  ms.reverse.foldr (fun m h => m h) base

/-! ## mux_server.go: data -/

/-- Go `error` values, kept as their message; `Option Error` is an `error` that may be `nil`. -/
abbrev Error := String

/-- A connection handle: a `net.Conn` (in fact a `*MuxConn`), used as a map key and so
compared by identity. -/
abbrev Conn := Nat

/-- The constants of `http.ConnState` that the callback switches on. -/
inductive ConnState where
  | StateNew
  | StateActive
  | StateIdle
  | StateHijacked
  | StateClosed
  deriving DecidableEq, Repr

/-- The map type `map[net.Conn]http.ConnState`: finitely many keys, each bound once.
Go iterates a map in no fixed order; the order of the entries here is one such order. -/
abbrev Census := AList (fun _ : Conn => ConnState)

/-- The TCP listener that `net.Listen` returns.  `closeErr` is what its `Close` returns,
`closeCalls` counts the calls of `Close` made on it. -/
structure Listener where
  addr : String
  closeErr : Option Error
  closeCalls : Nat
  deriving DecidableEq, Repr

/-- The part of `tls.Config` that the code touches. -/
structure TLSConfig where
  NextProtos : List String
  Certificates : List String
  deriving DecidableEq, Repr

/-- The struct `MuxListener`: the embedded `net.Listener` and `config`. -/
structure MuxListener where
  Listener : Listener
  config : TLSConfig
  deriving DecidableEq, Repr

/-- The method `(*MuxListener).Close`; the receiver is a pointer that may be `nil`
(`none`).  Returns the error and the receiver after the call. -/
def MuxListener.Close : Option MuxListener → Option Error × Option MuxListener
  | none => (none, none)
  | some l =>
    (l.Listener.closeErr,
      some { l with Listener := { l.Listener with closeCalls := l.Listener.closeCalls + 1 } })

/-- The duration `time.Second`, in nanoseconds. -/
def Second : Nat := 1000000000

/-- The struct `MuxServer`, with the embedded `http.Server` flattened.

* `WaitGroup` is the counter of the `sync.WaitGroup`: `Add(1)` adds one, `Done()`
  subtracts one, `Wait()` returns when it is zero.  The library panics when `Done()`
  would take the counter below zero; the callback never does that on a server that it
  alone has driven (`deliver_latch_ge`), and the panic is not modelled.
* `mutex` is `true` while the `sync.Mutex` is held.
* `conns` is `none` for the `nil` map.
* `keepAlives` is the switch that `SetKeepAlivesEnabled` sets.
* `closedConns` records, in order, the connections on which the server called `c.Close()`.
* `timer` is `true` while the timer created by `time.AfterFunc` in `Close` is pending. -/
structure MuxServer (H : Type) where
  Name : String
  Addr : String
  Handler : H
  ReadTimeout : Nat
  WriteTimeout : Nat
  MaxHeaderBytes : Nat
  keepAlives : Bool
  listener : Option MuxListener
  WaitGroup : Int
  GracefulTimeout : Nat
  mutex : Bool
  closed : Bool
  conns : Option Census
  closedConns : List Conn
  timer : Bool

/-- Reading `ms.conns`: a `nil` map reads as the empty map. -/
def MuxServer.census {H : Type} (ms : MuxServer H) : Census :=
  match ms.conns with
  | none => ∅
  | some m => m

/-- The value of `len(ms.conns)`: the number of connections in the census. -/
def MuxServer.censusSize {H : Type} (ms : MuxServer H) : Nat :=
  ms.census.keys.length

/-- The constructor `NewMuxServer`.  The call `ms.connState()` installs the callback
`connState` below as `ms.Server.ConnState`. -/
def NewMuxServer {H : Type} (name : String) (addr : String) (handler : H) : MuxServer H :=
  { Name := name
    Addr := addr
    Handler := handler
    ReadTimeout := 10 * Second
    WriteTimeout := 10 * Second
    MaxHeaderBytes := 2 ^ 20
    keepAlives := true
    listener := none
    WaitGroup := 0
    GracefulTimeout := 5 * Second
    mutex := false
    closed := false
    conns := none
    closedConns := []
    timer := false }

/-! ## mux_server.go: the lifecycle callback -/

/-- The method `forgetConn`: if `c` is a key of `ms.conns`, delete it and call
`ms.WaitGroup.Done()`. -/
def forgetConn {H : Type} (ms : MuxServer H) (c : Conn) : MuxServer H :=
  if c ∈ ms.census then
    { ms with conns := some (ms.census.erase c), WaitGroup := ms.WaitGroup - 1 }
  else ms

/-- The body of the callback, between `ms.mutex.Lock()` and the deferred
`ms.mutex.Unlock()`: the `switch cs`. -/
def connStateSwitch {H : Type} (ms : MuxServer H) (c : Conn) : ConnState → MuxServer H
  | .StateNew =>
    let ms1 := { ms with WaitGroup := ms.WaitGroup + 1 }
    { ms1 with conns := some (ms1.census.insert c .StateNew) }
  | .StateActive =>
    if c ∈ ms.census then { ms with conns := some (ms.census.insert c .StateActive) } else ms
  | .StateIdle =>
    let ms1 :=
      if c ∈ ms.census then { ms with conns := some (ms.census.insert c .StateIdle) } else ms
    if ms1.closed then { ms1 with closedConns := ms1.closedConns ++ [c] } else ms1
  | .StateHijacked => forgetConn ms c
  | .StateClosed => forgetConn ms c

/-- The callback that `connState()` installs as `ms.Server.ConnState`.  `none` means the
call never returns: `ms.mutex.Lock()` on a mutex that is held and that nobody releases. -/
def connState {H : Type} (ms : MuxServer H) (c : Conn) (cs : ConnState) : Option (MuxServer H) :=
  if ms.mutex then none
  else
    let locked := { ms with mutex := true }
    some { connStateSwitch locked c cs with mutex := false }

/-- A lifecycle event: the serving engine calls the callback with `(c, cs)`. -/
structure ConnEvent where
  c : Conn
  cs : ConnState
  deriving DecidableEq, Repr

/-- Delivering a sequence of lifecycle events, one callback call after the other;
`none` if one of the calls never returns. -/
def deliver {H : Type} (ms : MuxServer H) : List ConnEvent → Option (MuxServer H)
  | [] => some ms
  | e :: es =>
    match connState ms e.c e.cs with
    | none => none
    | some ms1 => deliver ms1 es

/-- The engine's protocol for `StateNew`: in the event sequence, `StateNew` is reported
for a connection only when that connection is not live, where a connection is live from
its `StateNew` to its `StateHijacked` or `StateClosed`.  `live` lists the live
connections before the sequence. -/
def newOnlyForFresh (live : List Conn) : List ConnEvent → Bool
  | [] => true
  | e :: es =>
    match e.cs with
    | .StateNew => decide (e.c ∉ live) && newOnlyForFresh (e.c :: live) es
    | .StateHijacked => newOnlyForFresh (live.filter (fun d => d != e.c)) es
    | .StateClosed => newOnlyForFresh (live.filter (fun d => d != e.c)) es
    | _ => newOnlyForFresh live es

/-! ## mux_server.go: Close -/

/-- How a call ends: it returns an `error` (`none` is `nil`), or it never returns because
it is blocked (in `ms.mutex.Lock()`, or in `ms.WaitGroup.Wait()` while the counter is
not zero). -/
inductive Ret where
  | returned (err : Option Error)
  | blocked
  deriving DecidableEq, Repr

/-- The connections that the first loop of `Close` closes: the keys of the census whose
recorded state is `StateIdle` or `StateNew`. -/
def idleOrNew (m : Census) : List Conn :=
  (m.entries.filter (fun e => decide (e.2 = .StateIdle ∨ e.2 = .StateNew))).map (fun e => e.1)

/-- The function handed to `time.AfterFunc`, run when the timer fires: it calls `c.Close()`
for every key of `ms.conns`.  A timer that is not pending (never created, stopped, or
already fired) does nothing. -/
def gracefulTimeoutFires {H : Type} (ms : MuxServer H) : MuxServer H :=
  if ms.timer then
    { ms with closedConns := ms.closedConns ++ ms.census.keys, timer := false }
  else ms

/-- What the other goroutines do while `Close` is in `ms.WaitGroup.Wait()`: the engine
reports a lifecycle event, or the deadline timer fires. -/
inductive WaitEvent where
  | conn (c : Conn) (cs : ConnState)
  | timeout
  deriving DecidableEq, Repr

/-- One event of the other goroutines.  A callback that blocks on the mutex leaves the
server as it is. -/
def WaitEvent.run {H : Type} (ms : MuxServer H) : WaitEvent → MuxServer H
  | .conn c cs =>
    match connState ms c cs with
    | some ms1 => ms1
    | none => ms
  | .timeout => gracefulTimeoutFires ms

/-- The call `ms.WaitGroup.Wait()`: it returns as soon as the counter is zero; until then
the events of `env` happen one by one.  The flag is `false` when `env` is used up and the
counter is still not zero: the call is still blocked. -/
def Wait {H : Type} (ms : MuxServer H) : List WaitEvent → Bool × MuxServer H
  | [] => (decide (ms.WaitGroup = 0), ms)
  | e :: env => if ms.WaitGroup = 0 then (true, ms) else Wait (e.run ms) env

/-- The value of `errors.New("Server has been closed.")`. -/
def errServerClosed : Error := "Server has been closed."

/-- Lines 156 to 184 of `Close`, from `ms.mutex.Lock()` to `ms.mutex.Unlock()`.
`Sum.inl` is a call that ends there (an early `return`, or `Lock` blocked);
`Sum.inr` is the server after `Unlock`, about to wait. -/
def closeLocked {H : Type} (ms : MuxServer H) : (Ret × MuxServer H) ⊕ MuxServer H :=
  if ms.mutex then .inl (.blocked, ms)
  else
    let ms1 := { ms with mutex := true }
    if ms1.closed then .inl (.returned (some errServerClosed), ms1)
    else
      let ms2 := { ms1 with closed := true }
      match MuxListener.Close ms2.listener with
      | (some err, l) => .inl (.returned (some err), { ms2 with listener := l })
      | (none, l) =>
        let ms3 := { ms2 with listener := l, keepAlives := false }
        let ms4 := { ms3 with closedConns := ms3.closedConns ++ idleOrNew ms3.census }
        let ms5 := { ms4 with timer := true }
        .inr { ms5 with mutex := false }

/-- The method `(*MuxServer).Close`.  `env` is what the other goroutines do while the
call waits for the counter; the deferred `t.Stop()` runs when the call returns. -/
def Close {H : Type} (ms : MuxServer H) (env : List WaitEvent) : Ret × MuxServer H :=
  match closeLocked ms with
  | .inl r => r
  | .inr ms1 =>
    match Wait ms1 env with
    | (true, ms2) => (.returned none, { ms2 with timer := false })
    | (false, ms2) => (.blocked, ms2)

/-! ## mux_server.go: ListenAndServe, ListenAndServeTLS -/

/-- The results of the library calls of the serve functions: `net.Listen("tcp", addr)`,
`tls.LoadX509KeyPair(certFile, keyFile)`, and the error with which the serve loop ends. -/
structure Net where
  Listen : String → String → Except Error Listener
  LoadX509KeyPair : String → String → Except Error String
  Serve : MuxListener → Error

/-- The library calls the serve functions make, in order.  `Serve` carries the listener
that is served; `front` is `true` when the handler served is the redirecting closure of
`ListenAndServeTLS` (`http.Serve`) and `false` when it is the server's own handler
(`ms.Server.Serve`). -/
inductive NetCall where
  | Listen (network : String) (addr : String)
  | LoadX509KeyPair (certFile : String) (keyFile : String)
  | Serve (l : MuxListener) (front : Bool)
  deriving DecidableEq, Repr

/-- What a serve function leaves behind: how the call ended, the server, the library
calls made, and the listeners that `net.Listen` opened during the call. -/
structure Served (H : Type) where
  ret : Ret
  ms : MuxServer H
  calls : List NetCall
  opened : List Listener

/-- The method `(*MuxServer).ListenAndServe`. -/
def ListenAndServe {H : Type} (net : Net) (ms : MuxServer H) : Served H :=
  match net.Listen "tcp" ms.Addr with
  | .error err => ⟨.returned (some err), ms, [.Listen "tcp" ms.Addr], []⟩
  | .ok listener =>
    let muxListener : MuxListener := { Listener := listener, config := ⟨[], []⟩ }
    if ms.mutex then ⟨.blocked, ms, [.Listen "tcp" ms.Addr], [listener]⟩
    else
      let ms1 := { ms with listener := some muxListener }
      ⟨.returned (some (net.Serve muxListener)), ms1,
        [.Listen "tcp" ms.Addr, .Serve muxListener false], [listener]⟩

/-- The method `(*MuxServer).ListenAndServeTLS`.  The local `config` receives the
protocol hints and the loaded certificate; the listener gets a fresh empty `tls.Config`. -/
def ListenAndServeTLS {H : Type} (net : Net) (ms : MuxServer H) (certFile keyFile : String) :
    Served H :=
  match net.Listen "tcp" ms.Addr with
  | .error err => ⟨.returned (some err), ms, [.Listen "tcp" ms.Addr], []⟩
  | .ok listener =>
    match net.LoadX509KeyPair certFile keyFile with
    | .error err =>
      ⟨.returned (some err), ms,
        [.Listen "tcp" ms.Addr, .LoadX509KeyPair certFile keyFile], [listener]⟩
    | .ok _ =>
      let muxListener : MuxListener := { Listener := listener, config := ⟨[], []⟩ }
      if ms.mutex then
        ⟨.blocked, ms, [.Listen "tcp" ms.Addr, .LoadX509KeyPair certFile keyFile], [listener]⟩
      else
        let ms1 := { ms with listener := some muxListener }
        ⟨.returned (some (net.Serve muxListener)), ms1,
          [.Listen "tcp" ms.Addr, .LoadX509KeyPair certFile keyFile, .Serve muxListener true],
          [listener]⟩

/-! ## mux_server.go: the handler served by ListenAndServeTLS -/

/-- The struct `url.Userinfo`. -/
structure Userinfo where
  username : String
  password : String
  passwordSet : Bool
  deriving DecidableEq, Repr

/-- The struct `url.URL`; `User` is a pointer that may be `nil`. -/
structure URL where
  Scheme : String
  Opaque : String
  User : Option Userinfo
  Host : String
  Path : String
  RawPath : String
  ForceQuery : Bool
  RawQuery : String
  Fragment : String
  RawFragment : String
  deriving DecidableEq, Repr

/-- The part of `http.Request` that the handler reads; `TLS` is `none` for a request
that did not arrive over TLS (`r.TLS == nil`).  `id` stands for the rest of the request. -/
structure Request where
  id : Nat
  URL : URL
  Host : String
  TLS : Option Nat
  deriving DecidableEq, Repr

/-- A `http.ResponseWriter`, as a handle. -/
abbrev ResponseWriter := Nat

/-- The constant `http.StatusMovedPermanently`. -/
def StatusMovedPermanently : Nat := 301

/-- The calls the handler makes: `http.Redirect(w, r, url, code)`, or `ServeHTTP(w, r)` on
the handler `h`. -/
inductive HandlerCall (H : Type) where
  | Redirect (w : ResponseWriter) (r : Request) (url : String) (code : Nat)
  | ServeHTTP (h : H) (w : ResponseWriter) (r : Request)

/-- The `url.URL` literal of the closure. -/
def redirectURL (r : Request) : URL :=
  { Scheme := "https"
    Opaque := r.URL.Opaque
    User := r.URL.User
    Host := r.Host
    Path := r.URL.Path
    RawPath := ""
    ForceQuery := false
    RawQuery := r.URL.RawQuery
    Fragment := r.URL.Fragment
    RawFragment := "" }

/-- The closure that `ListenAndServeTLS` hands to `http.Serve`, as the list of the calls it
makes.  `urlString` is the library method `(*url.URL).String`. -/
def tlsHandler {H : Type} (urlString : URL → String) (ms : MuxServer H)
    (w : ResponseWriter) (r : Request) : List (HandlerCall H) :=
  match r.TLS with
  | none => [.Redirect w r (urlString (redirectURL r)) StatusMovedPermanently]
  | some _ => [.ServeHTTP ms.Handler w r]

/-! ## Concrete servers used below -/

/-- A listener bound to the default address whose `Close` succeeds. -/
def exampleListener : MuxListener :=
  { Listener := { addr := "0.0.0.0:8709", closeErr := none, closeCalls := 0 }
    config := ⟨[], []⟩ }

/-- A serving server (the listener is installed) that tracks three connections:
`1` is new, `2` is active, `3` is idle. -/
def exampleServing : MuxServer Unit :=
  { NewMuxServer "yados" "0.0.0.0:8709" () with
    listener := some exampleListener
    WaitGroup := 3
    conns := some (((∅ : Census).insert 3 .StateIdle).insert 2 .StateActive |>.insert 1 .StateNew) }

/-- The server `exampleServing` with the counter at zero and no connection tracked. -/
def exampleQuiet : MuxServer Unit :=
  { NewMuxServer "yados" "0.0.0.0:8709" () with listener := some exampleListener }

/-- The server `exampleQuiet` on a listener whose `Close` fails. -/
def exampleFailing : MuxServer Unit :=
  { NewMuxServer "yados" "0.0.0.0:8709" () with
    listener := some
      { Listener := { addr := "0.0.0.0:8709", closeErr := some "use of closed network connection",
                      closeCalls := 0 }
        config := ⟨[], []⟩ } }

/-- A network on which every bind succeeds, the key file is missing, and a serve loop
ends with "http: Server closed". -/
def exampleNetNoKey : Net :=
  { Listen := fun _ addr => .ok { addr := addr, closeErr := none, closeCalls := 0 }
    LoadX509KeyPair := fun _ _ => .error "open server.key: no such file or directory"
    Serve := fun _ => "http: Server closed" }

/-- A plain-text request `GET /a/b?x=1#top` for the host `example.org:8709`. -/
def examplePlainRequest : Request :=
  { id := 0
    URL :=
      { Scheme := "", Opaque := "", User := none, Host := "", Path := "/a/b", RawPath := "",
        ForceQuery := false, RawQuery := "x=1", Fragment := "top", RawFragment := "" }
    Host := "example.org:8709"
    TLS := none }

/-- The request `examplePlainRequest`, received over TLS. -/
def exampleTLSRequest : Request :=
  { examplePlainRequest with TLS := some 0 }

/-! ## The middleware chain -/

theorem RegisterHandlers_eq_foldl {H : Type} (l : List (HandlerFunc H)) (r : H) :
    RegisterHandlers r l = l.foldl (fun f hFn => hFn f) r := by
  induction l generalizing r with
  | nil => rfl
  | cons hFn rest ih => simpa [RegisterHandlers] using ih (hFn r)

theorem RegisterHandlers_append {H : Type} (l₁ l₂ : List (HandlerFunc H)) (r : H) :
    RegisterHandlers r (l₁ ++ l₂) = RegisterHandlers (RegisterHandlers r l₁) l₂ := by
  simp [RegisterHandlers_eq_foldl]

/-- C1: `RegisterHandlers base [m₁, …, mₙ]` is the nested application `mₙ(…(m₁(base))…)`:
with no middleware it is the base handler, the first middleware is applied to the base
handler itself (innermost), and the last one is applied to the chain of all the others
(outermost). -/
theorem RegisterHandlers_nested {H : Type} (base : H) (ms : List (HandlerFunc H)) :
    RegisterHandlers base ms = nested base ms ∧
    RegisterHandlers base [] = base ∧
    (∀ m₁ : HandlerFunc H, RegisterHandlers base (m₁ :: ms) = RegisterHandlers (m₁ base) ms) ∧
    (∀ mₙ : HandlerFunc H, RegisterHandlers base (ms ++ [mₙ]) = mₙ (RegisterHandlers base ms)) := by
  refine ⟨?_, rfl, fun _ => rfl, fun mₙ => ?_⟩
  · rw [RegisterHandlers_eq_foldl, nested, List.foldr_reverse]
  · rw [RegisterHandlers_append]; rfl

/-! ## The census and the latch -/

theorem keys_length_insert_of_mem (m : Census) (c : Conn) (cs : ConnState) (h : c ∈ m) :
    (m.insert c cs).keys.length = m.keys.length := by
  have hk : c ∈ m.keys := AList.mem_keys.mp h
  rw [AList.keys_insert, List.length_cons, List.length_erase_of_mem hk]
  have : 0 < m.keys.length := List.length_pos_of_mem hk
  omega

theorem keys_length_insert_of_not_mem (m : Census) (c : Conn) (cs : ConnState) (h : c ∉ m) :
    (m.insert c cs).keys.length = m.keys.length + 1 := by
  have hk : c ∉ m.keys := fun hc => h (AList.mem_keys.mpr hc)
  rw [AList.keys_insert, List.length_cons, List.erase_of_not_mem hk]

theorem keys_length_erase_of_mem (m : Census) (c : Conn) (h : c ∈ m) :
    (m.erase c).keys.length + 1 = m.keys.length := by
  have hk : c ∈ m.keys := AList.mem_keys.mp h
  rw [AList.keys_erase, List.length_erase_of_mem hk]
  have : 0 < m.keys.length := List.length_pos_of_mem hk
  omega

theorem connState_eq_switch {H : Type} (ms : MuxServer H) (c : Conn) (cs : ConnState)
    (h : ms.mutex = false) : connState ms c cs = some (connStateSwitch ms c cs) := by
  obtain ⟨n, a, hd, rt, wt, mh, ka, l, wg, gt, mu, cl, co, cc, ti⟩ := ms
  simp only at h
  subst h
  cases cs <;>
    simp only [connState, connStateSwitch, forgetConn, MuxServer.census] <;>
    (repeat' split) <;> simp_all

theorem switch_mutex {H : Type} (ms : MuxServer H) (c : Conn) (cs : ConnState) :
    (connStateSwitch ms c cs).mutex = ms.mutex := by
  cases cs <;> simp only [connStateSwitch, forgetConn] <;> (repeat' split) <;> rfl

theorem forgetConn_of_mem {H : Type} (ms : MuxServer H) (c : Conn) (h : c ∈ ms.census) :
    (forgetConn ms c).census = ms.census.erase c ∧
    (forgetConn ms c).WaitGroup = ms.WaitGroup - 1 ∧
    (forgetConn ms c).mutex = ms.mutex := by
  rw [forgetConn, if_pos h]
  exact ⟨rfl, rfl, rfl⟩

theorem forgetConn_of_not_mem {H : Type} (ms : MuxServer H) (c : Conn) (h : c ∉ ms.census) :
    forgetConn ms c = ms := by
  simp [forgetConn, h]

theorem not_mem_forgetConn {H : Type} (ms : MuxServer H) (c : Conn) :
    c ∉ (forgetConn ms c).census := by
  by_cases h : c ∈ ms.census
  · rw [(forgetConn_of_mem ms c h).1, AList.mem_erase]; simp
  · rwa [forgetConn_of_not_mem ms c h]

theorem connState_forget {H : Type} (ms : MuxServer H) (c : Conn) (cs : ConnState)
    (hcs : cs = .StateClosed ∨ cs = .StateHijacked) (hm : ms.mutex = false) :
    connState ms c cs = some (forgetConn ms c) := by
  rw [connState_eq_switch ms c cs hm]
  rcases hcs with rfl | rfl <;> rfl

/-- C3: a `StateClosed` or `StateHijacked` event for `c` (the callback gets the mutex)
returns; if `c` was in the census it is removed, every other entry is kept, the census
is one smaller and the latch is one lower; if `c` was not in the census the server is
unchanged; and a second such event for `c` right after changes neither the census nor
the latch. -/
theorem closed_or_hijacked_forgets_once {H : Type} (ms : MuxServer H) (c : Conn)
    (cs : ConnState) (hcs : cs = .StateClosed ∨ cs = .StateHijacked) (hm : ms.mutex = false) :
    ∃ ms1, connState ms c cs = some ms1 ∧
      (c ∈ ms.census →
        c ∉ ms1.census ∧ ms1.WaitGroup = ms.WaitGroup - 1 ∧
        ms1.censusSize + 1 = ms.censusSize ∧
        ∀ d, d ≠ c → ms1.census.lookup d = ms.census.lookup d) ∧
      (c ∉ ms.census → ms1 = ms) ∧
      (∀ cs2, cs2 = .StateClosed ∨ cs2 = .StateHijacked →
        ∃ ms2, connState ms1 c cs2 = some ms2 ∧
          ms2.conns = ms1.conns ∧ ms2.WaitGroup = ms1.WaitGroup) := by
  refine ⟨forgetConn ms c, connState_forget ms c cs hcs hm, ?_, ?_, ?_⟩
  · intro h
    obtain ⟨h1, h2, _⟩ := forgetConn_of_mem ms c h
    refine ⟨not_mem_forgetConn ms c, h2, ?_, ?_⟩
    · simp only [MuxServer.censusSize, h1]
      exact keys_length_erase_of_mem _ _ h
    · intro d hd
      rw [h1, AList.lookup_erase_ne hd]
  · exact forgetConn_of_not_mem ms c
  · intro cs2 hcs2
    have hm1 : (forgetConn ms c).mutex = false := by
      by_cases h : c ∈ ms.census
      · rw [(forgetConn_of_mem ms c h).2.2, hm]
      · rw [forgetConn_of_not_mem ms c h, hm]
    refine ⟨forgetConn (forgetConn ms c) c, connState_forget _ c cs2 hcs2 hm1, ?_⟩
    rw [forgetConn_of_not_mem _ c (not_mem_forgetConn ms c)]
    exact ⟨rfl, rfl⟩

theorem closed_or_hijacked_forgets_once_witness :
    ((ConnState.StateClosed = .StateClosed ∨ ConnState.StateClosed = .StateHijacked) ∧
      exampleServing.mutex = false ∧ (2 : Conn) ∈ exampleServing.census) ∧
    ∃ ms1, connState exampleServing 2 .StateClosed = some ms1 ∧
      (2 : Conn) ∉ ms1.census ∧ ms1.WaitGroup = 2 ∧ ms1.censusSize = 2 := by
  have hmem : (2 : Conn) ∈ exampleServing.census := by decide
  have hsize : exampleServing.censusSize = 3 := by decide
  have hlatch : exampleServing.WaitGroup = 3 := rfl
  obtain ⟨ms1, h1, h2, -, -⟩ :=
    closed_or_hijacked_forgets_once exampleServing 2 .StateClosed (Or.inl rfl) rfl
  obtain ⟨h3, h4, h5, -⟩ := h2 hmem
  refine ⟨⟨Or.inl rfl, rfl, hmem⟩, ms1, h1, h3, ?_, ?_⟩
  · rw [h4, hlatch]; rfl
  · omega

theorem switch_active_or_idle {H : Type} (ms : MuxServer H) (c : Conn) (cs : ConnState)
    (hcs : cs = .StateActive ∨ cs = .StateIdle) :
    (connStateSwitch ms c cs).WaitGroup = ms.WaitGroup ∧
    (connStateSwitch ms c cs).conns =
      (if c ∈ ms.census then some (ms.census.insert c cs) else ms.conns) ∧
    (connStateSwitch ms c cs).closedConns =
      (if cs = .StateIdle ∧ ms.closed = true then ms.closedConns ++ [c] else ms.closedConns) := by
  rcases hcs with rfl | rfl <;> simp only [connStateSwitch] <;> (repeat' split) <;> simp_all

/-- C6: a `StateActive` or `StateIdle` event for `c` (the callback gets the mutex)
returns and leaves the latch unchanged.  If `c` is not in the census the map is left as
it is, and `c` is still not in it.  If `c` is in the census, its recorded state becomes
the reported one, the recorded state of every other connection and the size of the
census are unchanged.  (Apart from the census: a `StateIdle` event on a closed server
also calls `c.Close()`.) -/
theorem active_or_idle_frame {H : Type} (ms : MuxServer H) (c : Conn) (cs : ConnState)
    (hcs : cs = .StateActive ∨ cs = .StateIdle) (hm : ms.mutex = false) :
    ∃ ms1, connState ms c cs = some ms1 ∧
      ms1.WaitGroup = ms.WaitGroup ∧
      (c ∉ ms.census → ms1.conns = ms.conns ∧ c ∉ ms1.census) ∧
      (c ∈ ms.census →
        ms1.census.lookup c = some cs ∧ ms1.censusSize = ms.censusSize ∧
        ∀ d, d ≠ c → ms1.census.lookup d = ms.census.lookup d) ∧
      ms1.closedConns =
        (if cs = .StateIdle ∧ ms.closed = true then ms.closedConns ++ [c]
          else ms.closedConns) := by
  obtain ⟨hw, hc, hcc⟩ := switch_active_or_idle ms c cs hcs
  refine ⟨connStateSwitch ms c cs, connState_eq_switch ms c cs hm, hw, ?_, ?_, hcc⟩
  · intro h
    rw [if_neg h] at hc
    refine ⟨hc, ?_⟩
    simpa only [MuxServer.census, hc] using h
  · intro h
    rw [if_pos h] at hc
    have hcen : (connStateSwitch ms c cs).census = ms.census.insert c cs := by
      simp only [MuxServer.census, hc]
    refine ⟨?_, ?_, ?_⟩
    · rw [hcen, AList.lookup_insert]
    · simp only [MuxServer.censusSize, hcen]
      exact keys_length_insert_of_mem _ _ _ h
    · intro d hd
      rw [hcen, AList.lookup_insert_ne hd]

theorem active_or_idle_frame_witness :
    ((ConnState.StateIdle = .StateActive ∨ ConnState.StateIdle = .StateIdle) ∧
      exampleServing.mutex = false ∧ (2 : Conn) ∈ exampleServing.census ∧
      (7 : Conn) ∉ exampleServing.census) ∧
    (∃ ms1, connState exampleServing 2 .StateIdle = some ms1 ∧
      ms1.WaitGroup = 3 ∧ ms1.census.lookup 2 = some .StateIdle ∧ ms1.censusSize = 3) ∧
    (∃ ms1, connState exampleServing 7 .StateIdle = some ms1 ∧
      ms1.WaitGroup = 3 ∧ ms1.conns = exampleServing.conns) := by
  have hmem : (2 : Conn) ∈ exampleServing.census := by decide
  have hnot : (7 : Conn) ∉ exampleServing.census := by decide
  have hsize : exampleServing.censusSize = 3 := by decide
  obtain ⟨ms1, h1, h2, -, h3, -⟩ :=
    active_or_idle_frame exampleServing 2 .StateIdle (Or.inr rfl) rfl
  obtain ⟨ms7, k1, k2, k3, -, -⟩ :=
    active_or_idle_frame exampleServing 7 .StateIdle (Or.inr rfl) rfl
  obtain ⟨h4, h5, -⟩ := h3 hmem
  exact ⟨⟨Or.inr rfl, rfl, hmem, hnot⟩, ⟨ms1, h1, h2, h4, h5.trans hsize⟩,
    ⟨ms7, k1, k2, (k3 hnot).1⟩⟩

theorem censusSize_switch_active_or_idle {H : Type} (ms : MuxServer H) (c : Conn)
    (cs : ConnState) (hcs : cs = .StateActive ∨ cs = .StateIdle) :
    (connStateSwitch ms c cs).censusSize = ms.censusSize := by
  obtain ⟨-, hc, -⟩ := switch_active_or_idle ms c cs hcs
  by_cases h : c ∈ ms.census
  · rw [if_pos h] at hc
    simp only [MuxServer.censusSize, MuxServer.census, hc]
    exact keys_length_insert_of_mem _ _ _ h
  · rw [if_neg h] at hc
    simp only [MuxServer.censusSize, MuxServer.census, hc]

theorem latch_gap_forgetConn {H : Type} (ms : MuxServer H) (c : Conn) :
    (forgetConn ms c).WaitGroup - (forgetConn ms c).censusSize =
      ms.WaitGroup - ms.censusSize := by
  by_cases h : c ∈ ms.census
  · obtain ⟨h1, h2, -⟩ := forgetConn_of_mem ms c h
    have := keys_length_erase_of_mem _ _ h
    simp only [MuxServer.censusSize]
    rw [h1, h2]
    omega
  · rw [forgetConn_of_not_mem ms c h]

/-- One callback call changes the gap between the latch and the size of the census in one
case only: a `StateNew` for a connection that is in the census widens it by one. -/
theorem switch_latch_gap {H : Type} (ms : MuxServer H) (c : Conn) (cs : ConnState) :
    (connStateSwitch ms c cs).WaitGroup - (connStateSwitch ms c cs).censusSize =
      ms.WaitGroup - ms.censusSize +
        (if cs = .StateNew ∧ c ∈ ms.census then 1 else 0) := by
  cases cs with
  | StateNew =>
    have hcen : (connStateSwitch ms c .StateNew).census = ms.census.insert c .StateNew := rfl
    have hw : (connStateSwitch ms c .StateNew).WaitGroup = ms.WaitGroup + 1 := rfl
    rw [hw, MuxServer.censusSize, hcen, MuxServer.censusSize]
    by_cases h : c ∈ ms.census
    · rw [keys_length_insert_of_mem _ _ _ h, if_pos ⟨rfl, h⟩]
      omega
    · rw [keys_length_insert_of_not_mem _ _ _ h, if_neg (fun hh => h hh.2)]
      push_cast
      omega
  | StateActive =>
    rw [(switch_active_or_idle ms c _ (Or.inl rfl)).1,
      censusSize_switch_active_or_idle ms c _ (Or.inl rfl)]
    simp
  | StateIdle =>
    rw [(switch_active_or_idle ms c _ (Or.inr rfl)).1,
      censusSize_switch_active_or_idle ms c _ (Or.inr rfl)]
    simp
  | StateHijacked =>
    have h := latch_gap_forgetConn ms c
    simpa [connStateSwitch] using h
  | StateClosed =>
    have h := latch_gap_forgetConn ms c
    simpa [connStateSwitch] using h

/-- One callback call keeps `latch = size of the census`, provided `StateNew` is not
reported for a connection that is in the census. -/
theorem switch_keeps_latch {H : Type} (ms : MuxServer H) (c : Conn) (cs : ConnState)
    (hnew : cs = .StateNew → c ∉ ms.census) (hinv : ms.WaitGroup = ms.censusSize) :
    (connStateSwitch ms c cs).WaitGroup = (connStateSwitch ms c cs).censusSize := by
  have h := switch_latch_gap ms c cs
  rw [if_neg (fun hh => hnew hh.1 hh.2), hinv] at h
  omega

/-- Whatever events are delivered to a server whose mutex is free and whose latch is at
least the size of its census, every call returns and the latch stays at least the size
of the census: `ms.WaitGroup.Done()` never takes the counter below zero. -/
theorem deliver_latch_ge {H : Type} (evs : List ConnEvent) :
    ∀ ms : MuxServer H, ms.mutex = false → (ms.censusSize : Int) ≤ ms.WaitGroup →
      ∃ ms1, deliver ms evs = some ms1 ∧ (ms1.censusSize : Int) ≤ ms1.WaitGroup := by
  induction evs with
  | nil => intro ms _ hinv; exact ⟨ms, rfl, hinv⟩
  | cons e es ih =>
    intro ms hm hinv
    have hstep : deliver ms (e :: es) = deliver (connStateSwitch ms e.c e.cs) es := by
      simp only [deliver, connState_eq_switch ms e.c e.cs hm]
    rw [hstep]
    refine ih _ (by rw [switch_mutex, hm]) ?_
    have h := switch_latch_gap ms e.c e.cs
    split at h <;> omega

theorem mem_switch_new {H : Type} (ms : MuxServer H) (c d : Conn) :
    d ∈ (connStateSwitch ms c .StateNew).census ↔ d = c ∨ d ∈ ms.census := by
  have hcen : (connStateSwitch ms c .StateNew).census = ms.census.insert c .StateNew := rfl
  rw [hcen, AList.mem_insert]

theorem mem_switch_active_or_idle {H : Type} (ms : MuxServer H) (c d : Conn) (cs : ConnState)
    (hcs : cs = .StateActive ∨ cs = .StateIdle) :
    d ∈ (connStateSwitch ms c cs).census ↔ d ∈ ms.census := by
  obtain ⟨-, hc, -⟩ := switch_active_or_idle ms c cs hcs
  by_cases h : c ∈ ms.census
  · rw [if_pos h] at hc
    have hcen : (connStateSwitch ms c cs).census = ms.census.insert c cs := by
      simp only [MuxServer.census, hc]
    rw [hcen, AList.mem_insert]
    constructor
    · rintro (rfl | hd)
      · exact h
      · exact hd
    · exact Or.inr
  · rw [if_neg h] at hc
    simp only [MuxServer.census, hc]

theorem mem_forgetConn {H : Type} (ms : MuxServer H) (c d : Conn) :
    d ∈ (forgetConn ms c).census ↔ d ≠ c ∧ d ∈ ms.census := by
  by_cases h : c ∈ ms.census
  · rw [(forgetConn_of_mem ms c h).1, AList.mem_erase]
  · rw [forgetConn_of_not_mem ms c h]
    constructor
    · intro hd
      exact ⟨fun hdc => h (hdc ▸ hd), hd⟩
    · exact fun hd => hd.2

theorem mem_filter_ne (live : List Conn) (c d : Conn) :
    d ∈ live.filter (fun x => x != c) ↔ d ≠ c ∧ d ∈ live := by
  simp [List.mem_filter, and_comm]

/-- From a server whose mutex is free, whose latch equals the size of its census and
whose census holds the connections of `live`, every event sequence that reports
`StateNew` only for connections that are not live is delivered completely, and leaves
the latch equal to the size of the census. -/
theorem deliver_keeps_latch {H : Type} (evs : List ConnEvent) :
    ∀ (ms : MuxServer H) (live : List Conn), ms.mutex = false →
      ms.WaitGroup = ms.censusSize → (∀ d, d ∈ live ↔ d ∈ ms.census) →
      newOnlyForFresh live evs = true →
      ∃ ms1, deliver ms evs = some ms1 ∧ ms1.mutex = false ∧
        ms1.WaitGroup = ms1.censusSize := by
  induction evs with
  | nil => intro ms live hm hinv _ _; exact ⟨ms, rfl, hm, hinv⟩
  | cons e es ih =>
    intro ms live hm hinv hlive hev
    obtain ⟨c, cs⟩ := e
    have hstep : deliver ms (⟨c, cs⟩ :: es) = deliver (connStateSwitch ms c cs) es := by
      simp only [deliver, connState_eq_switch ms c cs hm]
    have hm1 : (connStateSwitch ms c cs).mutex = false := by rw [switch_mutex, hm]
    rw [hstep]
    cases cs with
    | StateNew =>
      simp only [newOnlyForFresh, Bool.and_eq_true, decide_eq_true_eq] at hev
      have hc : c ∉ ms.census := fun h => hev.1 ((hlive c).mpr h)
      refine ih _ (c :: live) hm1 (switch_keeps_latch ms c _ (fun _ => hc) hinv) ?_ hev.2
      intro d
      rw [mem_switch_new, List.mem_cons, hlive d]
    | StateActive =>
      simp only [newOnlyForFresh] at hev
      refine ih _ live hm1 (switch_keeps_latch ms c _ (fun h => by cases h) hinv) ?_ hev
      intro d
      rw [mem_switch_active_or_idle ms c d _ (Or.inl rfl), hlive d]
    | StateIdle =>
      simp only [newOnlyForFresh] at hev
      refine ih _ live hm1 (switch_keeps_latch ms c _ (fun h => by cases h) hinv) ?_ hev
      intro d
      rw [mem_switch_active_or_idle ms c d _ (Or.inr rfl), hlive d]
    | StateHijacked =>
      simp only [newOnlyForFresh] at hev
      refine ih _ _ hm1 (switch_keeps_latch ms c _ (fun h => by cases h) hinv) ?_ hev
      intro d
      rw [mem_filter_ne, hlive d]
      exact (mem_forgetConn ms c d).symm
    | StateClosed =>
      simp only [newOnlyForFresh] at hev
      refine ih _ _ hm1 (switch_keeps_latch ms c _ (fun h => by cases h) hinv) ?_ hev
      intro d
      rw [mem_filter_ne, hlive d]
      exact (mem_forgetConn ms c d).symm

/-- C2, as stated, fails: two `StateNew` events for the same connection, delivered to a
freshly constructed server, leave the latch at 2 and one connection in the census. -/
theorem latch_ne_census_after_repeated_new :
    ¬ ∀ (evs : List ConnEvent) (ms1 : MuxServer Unit),
        deliver (NewMuxServer "yados" "0.0.0.0:8709" ()) evs = some ms1 →
        ms1.WaitGroup = ms1.censusSize := by
  intro h
  have h2 := h [⟨1, .StateNew⟩, ⟨1, .StateNew⟩] _ rfl
  revert h2
  decide

/-- C2, amended: for every sequence of lifecycle events that reports `StateNew` only for
connections that are not live (not between their `StateNew` and their `StateHijacked` or
`StateClosed`), delivered to a freshly constructed server, every callback call returns
and afterwards the latch equals the number of connections in the census. -/
theorem latch_eq_census_size {H : Type} (name addr : String) (handler : H)
    (evs : List ConnEvent) (hev : newOnlyForFresh [] evs = true) :
    ∃ ms1, deliver (NewMuxServer name addr handler) evs = some ms1 ∧
      ms1.WaitGroup = ms1.censusSize := by
  obtain ⟨ms1, h1, -, h2⟩ :=
    deliver_keeps_latch evs (NewMuxServer name addr handler) [] rfl rfl
      (fun d => by simp [MuxServer.census, NewMuxServer]) hev
  exact ⟨ms1, h1, h2⟩

theorem latch_eq_census_size_witness :
    newOnlyForFresh []
        [⟨1, .StateNew⟩, ⟨2, .StateNew⟩, ⟨1, .StateActive⟩, ⟨9, .StateIdle⟩,
          ⟨1, .StateClosed⟩, ⟨1, .StateClosed⟩, ⟨1, .StateNew⟩, ⟨2, .StateHijacked⟩] = true ∧
    ∃ ms1, deliver (NewMuxServer "yados" "0.0.0.0:8709" ())
        [⟨1, .StateNew⟩, ⟨2, .StateNew⟩, ⟨1, .StateActive⟩, ⟨9, .StateIdle⟩,
          ⟨1, .StateClosed⟩, ⟨1, .StateClosed⟩, ⟨1, .StateNew⟩, ⟨2, .StateHijacked⟩] = some ms1 ∧
      ms1.WaitGroup = ms1.censusSize :=
  ⟨by decide, latch_eq_census_size "yados" "0.0.0.0:8709" () _ (by decide)⟩

/-! ## Close -/

/-- The callback body touches only the census, the latch and the record of closed
connections. -/
theorem switch_frame {H : Type} (ms : MuxServer H) (c : Conn) (cs : ConnState) :
    (connStateSwitch ms c cs).closed = ms.closed ∧
    (connStateSwitch ms c cs).listener = ms.listener ∧
    (connStateSwitch ms c cs).timer = ms.timer ∧
    (connStateSwitch ms c cs).keepAlives = ms.keepAlives := by
  cases cs <;> simp only [connStateSwitch, forgetConn] <;> (repeat' split) <;> simp

theorem deliver_frame {H : Type} (evs : List ConnEvent) :
    ∀ ms : MuxServer H, ms.mutex = false →
      ∃ ms1, deliver ms evs = some ms1 ∧ ms1.mutex = false ∧ ms1.timer = ms.timer ∧
        ms1.closed = ms.closed ∧ ms1.listener = ms.listener := by
  induction evs with
  | nil => intro ms hm; exact ⟨ms, rfl, hm, rfl, rfl, rfl⟩
  | cons e es ih =>
    intro ms hm
    obtain ⟨h1, h2, h3, -⟩ := switch_frame ms e.c e.cs
    obtain ⟨ms1, k1, k2, k3, k4, k5⟩ :=
      ih (connStateSwitch ms e.c e.cs) (by rw [switch_mutex, hm])
    refine ⟨ms1, ?_, k2, k3.trans h3, k4.trans h1, k5.trans h2⟩
    simp only [deliver, connState_eq_switch ms e.c e.cs hm, k1]

theorem run_frame {H : Type} (ms : MuxServer H) (e : WaitEvent) (hm : ms.mutex = false) :
    (e.run ms).mutex = false ∧ (e.run ms).closed = ms.closed ∧
      (e.run ms).listener = ms.listener := by
  cases e with
  | conn c cs =>
    obtain ⟨h1, h2, -, -⟩ := switch_frame ms c cs
    simp only [WaitEvent.run, connState_eq_switch ms c cs hm]
    exact ⟨by rw [switch_mutex, hm], h1, h2⟩
  | timeout =>
    simp only [WaitEvent.run, gracefulTimeoutFires]
    split <;> simp [hm]

theorem Wait_frame {H : Type} (env : List WaitEvent) :
    ∀ ms : MuxServer H, ms.mutex = false →
      (Wait ms env).2.mutex = false ∧ (Wait ms env).2.closed = ms.closed ∧
        (Wait ms env).2.listener = ms.listener ∧
        ((Wait ms env).1 = true → (Wait ms env).2.WaitGroup = 0) ∧
        (ms.WaitGroup = 0 → Wait ms env = (true, ms)) := by
  induction env with
  | nil =>
    intro ms hm
    have hW : Wait ms [] = (decide (ms.WaitGroup = 0), ms) := rfl
    rw [hW]
    exact ⟨hm, rfl, rfl, fun h => of_decide_eq_true h, fun h => by simp [h]⟩
  | cons e env ih =>
    intro ms hm
    by_cases h0 : ms.WaitGroup = 0
    · have hW : Wait ms (e :: env) = (true, ms) := by simp [Wait, h0]
      rw [hW]
      exact ⟨hm, rfl, rfl, fun _ => h0, fun _ => rfl⟩
    · obtain ⟨r1, r2, r3⟩ := run_frame ms e hm
      obtain ⟨k1, k2, k3, k4, -⟩ := ih (e.run ms) r1
      have hW : Wait ms (e :: env) = Wait (e.run ms) env := by simp [Wait, h0]
      rw [hW]
      exact ⟨k1, k2.trans r2, k3.trans r3, k4, fun h => absurd h h0⟩

/-- The critical section of `Close` on a server that is not closed, whose mutex is free
and whose listener closes without error. -/
theorem closeLocked_of_open {H : Type} (ms : MuxServer H) (hm : ms.mutex = false)
    (hc : ms.closed = false) (hl : (MuxListener.Close ms.listener).1 = none) :
    closeLocked ms = .inr
      { ms with
        closed := true
        listener := (MuxListener.Close ms.listener).2
        keepAlives := false
        closedConns := ms.closedConns ++ idleOrNew ms.census
        timer := true } := by
  obtain ⟨n, a, hd, rt, wt, mh, ka, l, wg, gt, mu, cl, co, cc, ti⟩ := ms
  simp only at hm hc hl
  subst hm hc
  simp only [closeLocked]
  generalize MuxListener.Close l = p at hl
  obtain ⟨e, l1⟩ := p
  simp only at hl
  subst hl
  simp [MuxServer.census]

/-- `Close` on a closed server whose mutex is free: the early `return`. -/
theorem Close_of_closed {H : Type} (ms : MuxServer H) (env : List WaitEvent)
    (hm : ms.mutex = false) (hc : ms.closed = true) :
    Close ms env = (.returned (some errServerClosed), { ms with mutex := true }) := by
  simp [Close, closeLocked, hm, hc]

theorem mem_idleOrNew (m : Census) (c : Conn) :
    c ∈ idleOrNew m ↔ m.lookup c = some .StateNew ∨ m.lookup c = some .StateIdle := by
  simp only [idleOrNew, List.mem_map, List.mem_filter, decide_eq_true_eq]
  constructor
  · rintro ⟨⟨d, st⟩, ⟨hmem, hst⟩, rfl⟩
    have hl : m.lookup d = some st := AList.mem_lookup_iff.mpr hmem
    rcases hst with h | h
    · exact Or.inr (by rw [hl]; exact congrArg some h)
    · exact Or.inl (by rw [hl]; exact congrArg some h)
  · rintro (h | h)
    · exact ⟨⟨c, .StateNew⟩, ⟨AList.mem_lookup_iff.mp h, Or.inr rfl⟩, rfl⟩
    · exact ⟨⟨c, .StateIdle⟩, ⟨AList.mem_lookup_iff.mp h, Or.inl rfl⟩, rfl⟩

theorem idleOrNew_nodup (m : Census) : (idleOrNew m).Nodup :=
  List.Nodup.sublist (List.Sublist.map _ (List.filter_sublist _)) m.keys_nodup

/-- C9: on a server that is not closed, whose mutex is free and whose listener closes
without error, the critical section of `Close` completes with the timer pending and the
census untouched, and the connections it has closed by then are, once each, exactly the
census connections recorded as `StateNew` or `StateIdle` (so none recorded as
`StateActive`).  Whatever lifecycle events follow, the timer is still pending, and when
it fires it closes, once each, exactly the connections that are in the census then. -/
theorem Close_force_closes {H : Type} (ms : MuxServer H) (hm : ms.mutex = false)
    (hc : ms.closed = false) (hl : (MuxListener.Close ms.listener).1 = none) :
    ∃ ms1, closeLocked ms = .inr ms1 ∧ ms1.timer = true ∧ ms1.conns = ms.conns ∧
      (∃ now, ms1.closedConns = ms.closedConns ++ now ∧ now.Nodup ∧
        (∀ c, c ∈ now ↔
          ms.census.lookup c = some .StateNew ∨ ms.census.lookup c = some .StateIdle) ∧
        (∀ c, ms.census.lookup c = some .StateActive → c ∉ now)) ∧
      (∀ evs : List ConnEvent, ∃ ms2, deliver ms1 evs = some ms2 ∧ ms2.timer = true ∧
        ∃ late, (gracefulTimeoutFires ms2).closedConns = ms2.closedConns ++ late ∧
          late.Nodup ∧ ∀ c, c ∈ late ↔ c ∈ ms2.census) := by
  refine ⟨_, closeLocked_of_open ms hm hc hl, rfl, rfl, ?_, ?_⟩
  · refine ⟨idleOrNew ms.census, rfl, idleOrNew_nodup _, mem_idleOrNew _, ?_⟩
    intro c hact hmem
    rw [mem_idleOrNew, hact] at hmem
    rcases hmem with h | h <;> cases h
  · intro evs
    obtain ⟨ms2, k1, -, k3, -, -⟩ := deliver_frame evs
      ({ ms with
          closed := true
          listener := (MuxListener.Close ms.listener).2
          keepAlives := false
          closedConns := ms.closedConns ++ idleOrNew ms.census
          timer := true } : MuxServer H) hm
    have ht : ms2.timer = true := k3
    refine ⟨ms2, k1, ht, ms2.census.keys, ?_, ms2.census.keys_nodup, fun c => AList.mem_keys.symm⟩
    simp [gracefulTimeoutFires, ht]

theorem Close_force_closes_witness :
    (exampleServing.mutex = false ∧ exampleServing.closed = false ∧
      (MuxListener.Close exampleServing.listener).1 = none) ∧
    ∃ ms1, closeLocked exampleServing = .inr ms1 ∧ ms1.closedConns = [1, 3] ∧
      ∃ ms2, deliver ms1 [⟨3, .StateClosed⟩] = some ms2 ∧
        (gracefulTimeoutFires ms2).closedConns = [1, 3, 1, 2] := by
  obtain ⟨ms1, h1, -, -, -, -⟩ := Close_force_closes exampleServing rfl rfl rfl
  refine ⟨⟨rfl, rfl, rfl⟩, ms1, h1, ?_⟩
  have h2 := closeLocked_of_open exampleServing rfl rfl rfl
  rw [h1] at h2
  cases h2
  exact ⟨by decide, _, rfl, by decide⟩

theorem censusSize_eq_zero {H : Type} (ms : MuxServer H) (h : ∀ c, c ∉ ms.census) :
    ms.censusSize = 0 := by
  have hk : ms.census.keys = [] :=
    List.eq_nil_iff_forall_not_mem.mpr (fun c hc => h c (AList.mem_keys.mpr hc))
  simp [MuxServer.censusSize, hk]

theorem timeout_frame {H : Type} (ms : MuxServer H) :
    (gracefulTimeoutFires ms).conns = ms.conns ∧
      (gracefulTimeoutFires ms).WaitGroup = ms.WaitGroup := by
  simp only [gracefulTimeoutFires]
  split <;> exact ⟨rfl, rfl⟩

/-- The wait ends: if the latch equals the size of the census, no `StateNew` is reported
any more, and `StateClosed` is reported for every connection of the census, then
`ms.WaitGroup.Wait()` returns. -/
theorem Wait_returns {H : Type} (env : List WaitEvent) :
    ∀ ms : MuxServer H, ms.mutex = false → ms.WaitGroup = ms.censusSize →
      (∀ c, WaitEvent.conn c .StateNew ∉ env) →
      (∀ c, c ∈ ms.census → WaitEvent.conn c .StateClosed ∈ env) →
      (Wait ms env).1 = true := by
  induction env with
  | nil =>
    intro ms _ hinv _ hall
    have h0 : ms.WaitGroup = 0 := by
      rw [hinv, censusSize_eq_zero ms (fun c hc => by simpa using hall c hc)]; rfl
    simp [Wait, h0]
  | cons e env ih =>
    intro ms hm hinv hnew hall
    by_cases h0 : ms.WaitGroup = 0
    · simp [Wait, h0]
    · have hW : Wait ms (e :: env) = Wait (e.run ms) env := by simp [Wait, h0]
      have hnew1 : ∀ c, WaitEvent.conn c .StateNew ∉ env :=
        fun c hc => hnew c (List.mem_cons_of_mem _ hc)
      rw [hW]
      refine ih (e.run ms) (run_frame ms e hm).1 ?_ hnew1 ?_
      · cases e with
        | conn c cs =>
          simp only [WaitEvent.run, connState_eq_switch ms c cs hm]
          refine switch_keeps_latch ms c cs (fun hcs => ?_) hinv
          subst hcs
          exact absurd (List.mem_cons_self _ _) (hnew c)
        | timeout =>
          obtain ⟨t1, t2⟩ := timeout_frame ms
          simp only [WaitEvent.run, MuxServer.censusSize, MuxServer.census, t1, t2]
          exact hinv
      · intro d hd
        have hmem : d ∈ ms.census → WaitEvent.conn d .StateClosed ≠ e →
            WaitEvent.conn d .StateClosed ∈ env := by
          intro hdm hne
          rcases List.mem_cons.mp (hall d hdm) with h | h
          · exact absurd h hne
          · exact h
        cases e with
        | conn c cs =>
          simp only [WaitEvent.run, connState_eq_switch ms c cs hm] at hd
          cases cs with
          | StateNew => exact absurd (List.mem_cons_self _ _) (hnew c)
          | StateActive =>
            exact hmem ((mem_switch_active_or_idle ms c d _ (Or.inl rfl)).mp hd)
              (fun h => by cases h)
          | StateIdle =>
            exact hmem ((mem_switch_active_or_idle ms c d _ (Or.inr rfl)).mp hd)
              (fun h => by cases h)
          | StateHijacked =>
            exact hmem ((mem_forgetConn ms c d).mp hd).2 (fun h => by cases h)
          | StateClosed =>
            obtain ⟨hdc, hdm⟩ := (mem_forgetConn ms c d).mp hd
            exact hmem hdm (fun h => by cases h; exact hdc rfl)
        | timeout =>
          have hd1 : d ∈ ms.census := by
            simpa only [WaitEvent.run, MuxServer.census, (timeout_frame ms).1] using hd
          exact hmem hd1 (fun h => by cases h)

/-- The first `Close` on an open server never returns an error: it either returns `nil`
in a closed server whose mutex is free and whose listener was closed, or it is still
waiting; with the counter at zero it returns. -/
theorem Close_of_open {H : Type} (ms : MuxServer H) (env : List WaitEvent)
    (hm : ms.mutex = false) (hc : ms.closed = false)
    (hl : (MuxListener.Close ms.listener).1 = none) :
    (((Close ms env).1 = .returned none ∧ (Close ms env).2.WaitGroup = 0) ∨
        (Close ms env).1 = .blocked) ∧
      (Close ms env).2.mutex = false ∧ (Close ms env).2.closed = true ∧
      (Close ms env).2.listener = (MuxListener.Close ms.listener).2 ∧
      (ms.WaitGroup = 0 → (Close ms env).1 = .returned none) ∧
      (ms.WaitGroup = ms.censusSize → (∀ c, WaitEvent.conn c .StateNew ∉ env) →
        (∀ c, c ∈ ms.census → WaitEvent.conn c .StateClosed ∈ env) →
        (Close ms env).1 = .returned none) := by
  have h1 := closeLocked_of_open ms hm hc hl
  have k6 := Wait_returns env
    ({ ms with
        closed := true
        listener := (MuxListener.Close ms.listener).2
        keepAlives := false
        closedConns := ms.closedConns ++ idleOrNew ms.census
        timer := true } : MuxServer H) hm
  obtain ⟨k1, k2, k3, k4, k5⟩ := Wait_frame env
    ({ ms with
        closed := true
        listener := (MuxListener.Close ms.listener).2
        keepAlives := false
        closedConns := ms.closedConns ++ idleOrNew ms.census
        timer := true } : MuxServer H) hm
  simp only [Close, h1]
  revert k1 k2 k3 k4 k5 k6
  generalize Wait _ env = w
  obtain ⟨b, ms2⟩ := w
  intro k6 k1 k2 k3 k4 k5
  cases b with
  | true =>
    exact ⟨Or.inl ⟨rfl, k4 rfl⟩, k1, k2, k3, fun _ => rfl, fun _ _ _ => rfl⟩
  | false =>
    refine ⟨Or.inr rfl, k1, k2, k3, fun h0 => ?_, fun a b c => ?_⟩
    · have := k5 h0
      simp at this
    · have := k6 a b c
      simp at this

/-- C4: on a serving server (mutex free, not closed) whose listener closes without
error, the first `Close` never fails: it returns success or is still waiting for the
latch; it returns success when the latch is zero at the call, and when the latch equals
the size of the census and the engine, reporting no `StateNew` any more, reports
`StateClosed` for every connection of the census.  After it has returned success the
listener has been closed once, and the second `Close` returns
the error "Server has been closed." and leaves the census, the latch, the closed flag,
the listener (not closed again) and the record of closed connections as they were. -/
theorem Close_twice_in_sequence {H : Type} (ms : MuxServer H) (l : MuxListener)
    (env1 env2 : List WaitEvent) (hm : ms.mutex = false) (hc : ms.closed = false)
    (hl : ms.listener = some l) (herr : l.Listener.closeErr = none) :
    ((Close ms env1).1 = .returned none ∨ (Close ms env1).1 = .blocked) ∧
    (ms.WaitGroup = 0 → (Close ms env1).1 = .returned none) ∧
    (ms.WaitGroup = ms.censusSize → (∀ c, WaitEvent.conn c .StateNew ∉ env1) →
      (∀ c, c ∈ ms.census → WaitEvent.conn c .StateClosed ∈ env1) →
      (Close ms env1).1 = .returned none) ∧
    ((Close ms env1).1 = .returned none →
      (Close ms env1).2.listener =
        some { l with Listener := { l.Listener with closeCalls := l.Listener.closeCalls + 1 } } ∧
      (Close (Close ms env1).2 env2).1 = .returned (some errServerClosed) ∧
      (Close (Close ms env1).2 env2).2.conns = (Close ms env1).2.conns ∧
      (Close (Close ms env1).2 env2).2.WaitGroup = (Close ms env1).2.WaitGroup ∧
      (Close (Close ms env1).2 env2).2.closed = (Close ms env1).2.closed ∧
      (Close (Close ms env1).2 env2).2.listener = (Close ms env1).2.listener ∧
      (Close (Close ms env1).2 env2).2.closedConns = (Close ms env1).2.closedConns) := by
  have hl1 : (MuxListener.Close ms.listener).1 = none := by
    rw [hl]; exact herr
  obtain ⟨h1, h2, h3, h4, h5, h6⟩ := Close_of_open ms env1 hm hc hl1
  refine ⟨h1.imp And.left id, h5, h6, fun _ => ?_⟩
  rw [Close_of_closed (Close ms env1).2 env2 h2 h3, h4, hl]
  exact ⟨rfl, rfl, rfl, rfl, rfl, rfl, rfl⟩

theorem Close_twice_in_sequence_witness :
    (exampleServing.mutex = false ∧ exampleServing.closed = false ∧
      exampleServing.listener = some exampleListener ∧
      exampleListener.Listener.closeErr = none) ∧
    (Close exampleServing
        [.conn 1 .StateClosed, .conn 3 .StateClosed, .timeout, .conn 2 .StateClosed]).1 =
      .returned none ∧
    (Close (Close exampleServing
        [.conn 1 .StateClosed, .conn 3 .StateClosed, .timeout, .conn 2 .StateClosed]).2 []).1 =
      .returned (some errServerClosed) := by
  have h := Close_twice_in_sequence exampleServing exampleListener
    [.conn 1 .StateClosed, .conn 3 .StateClosed, .timeout, .conn 2 .StateClosed] []
    rfl rfl rfl rfl
  have hret : (Close exampleServing
      [.conn 1 .StateClosed, .conn 3 .StateClosed, .timeout, .conn 2 .StateClosed]).1 =
      .returned none := by decide
  exact ⟨⟨rfl, rfl, rfl, rfl⟩, hret, (h.2.2.2 hret).2.1⟩

/-- C5, as stated, fails: `Close` on a server that was constructed and never started
returns `nil`, not the error "Server has been closed.". -/
theorem Close_unstarted_not_rejected :
    (Close (NewMuxServer "yados" "0.0.0.0:8709" ()) []).1 = .returned none ∧
    (Close (NewMuxServer "yados" "0.0.0.0:8709" ()) []).1 ≠
      .returned (some errServerClosed) := by
  decide

/-- C5, amended: `Close` on a server that was constructed and never started (its listener
is `nil`) returns success: the `Close` of the `nil` listener does nothing and returns
`nil`, no connection is closed, and the call leaves the server closed with keep-alives
disabled, the mutex free and everything else as constructed. -/
theorem Close_unstarted_succeeds {H : Type} (name addr : String) (handler : H)
    (env : List WaitEvent) :
    (NewMuxServer name addr handler).listener = none ∧
    MuxListener.Close (NewMuxServer name addr handler).listener = (none, none) ∧
    Close (NewMuxServer name addr handler) env =
      (.returned none,
        { NewMuxServer name addr handler with closed := true, keepAlives := false }) ∧
    (Close (NewMuxServer name addr handler) env).2.closedConns = [] := by
  have h1 := closeLocked_of_open (NewMuxServer name addr handler) rfl rfl rfl
  obtain ⟨-, -, -, -, h5⟩ := Wait_frame env
    ({ NewMuxServer name addr handler with
        closed := true
        listener := (MuxListener.Close (NewMuxServer name addr handler).listener).2
        keepAlives := false
        closedConns := (NewMuxServer name addr handler).closedConns ++
          idleOrNew (NewMuxServer name addr handler).census
        timer := true } : MuxServer H) rfl
  have hC : Close (NewMuxServer name addr handler) env =
      (.returned none,
        { NewMuxServer name addr handler with closed := true, keepAlives := false }) := by
    simp only [Close, h1, h5 rfl]
    rfl
  refine ⟨rfl, rfl, hC, ?_⟩
  rw [hC]
  rfl

/-- C10, on the code: the two early returns of `Close` leave the mutex held.  On a
closed server `Close` returns "Server has been closed." with the mutex held, and on a
server whose listener fails to close it returns the listener's error with the mutex
held; after either, a lifecycle callback and a further `Close` never return. -/
theorem Close_early_return_holds_mutex :
    ((Close (Close exampleQuiet []).2 []).1 = .returned (some errServerClosed) ∧
      (Close (Close exampleQuiet []).2 []).2.mutex = true ∧
      connState (Close (Close exampleQuiet []).2 []).2 1 .StateNew = none ∧
      (Close (Close (Close exampleQuiet []).2 []).2 []).1 = .blocked) ∧
    ((Close exampleFailing []).1 = .returned (some "use of closed network connection") ∧
      (Close exampleFailing []).2.mutex = true ∧
      connState (Close exampleFailing []).2 1 .StateNew = none ∧
      (Close (Close exampleFailing []).2 []).1 = .blocked) ∧
    ((Close exampleQuiet []).1 = .returned none ∧ (Close exampleQuiet []).2.mutex = false) := by
  refine ⟨⟨?_, ?_, ?_, ?_⟩, ⟨?_, ?_, ?_, ?_⟩, ?_, ?_⟩ <;> rfl

/-! ## ListenAndServe, ListenAndServeTLS -/

/-- After `ListenAndServe` has bound the address of a freshly constructed server, the
server is serving: the listener is installed, the mutex is free, the server is not
closed, and no connection is tracked. -/
theorem ListenAndServe_serving {H : Type} (net : Net) (name addr : String) (handler : H)
    (listener : Listener) (hb : net.Listen "tcp" addr = .ok listener) :
    (ListenAndServe net (NewMuxServer name addr handler)).ms =
      { NewMuxServer name addr handler with
        listener := some { Listener := listener, config := ⟨[], []⟩ } } := by
  have h : net.Listen "tcp" (NewMuxServer name addr handler).Addr = .ok listener := hb
  simp only [ListenAndServe, h]
  rfl

/-- C7: for a request without a TLS session the handler makes exactly one call,
`http.Redirect` with status 301 and the string of a URL whose scheme is `https`, whose
host is the request's `Host` and whose path, query, fragment, user and opaque parts are
those of the request's URL; the base handler is not called.  For a request with a TLS
session it makes exactly one call, `ServeHTTP` of the server's handler with the same
writer and request. -/
theorem tlsHandler_redirects_or_serves {H : Type} (urlString : URL → String)
    (ms : MuxServer H) (w : ResponseWriter) (r : Request) :
    (r.TLS = none →
      ∃ u : URL, tlsHandler urlString ms w r = [.Redirect w r (urlString u) 301] ∧
        u.Scheme = "https" ∧ u.Host = r.Host ∧ u.Path = r.URL.Path ∧
        u.RawQuery = r.URL.RawQuery ∧ u.Fragment = r.URL.Fragment ∧
        u.User = r.URL.User ∧ u.Opaque = r.URL.Opaque) ∧
    (r.TLS ≠ none → tlsHandler urlString ms w r = [.ServeHTTP ms.Handler w r]) := by
  constructor
  · intro h
    refine ⟨redirectURL r, ?_, rfl, rfl, rfl, rfl, rfl, rfl, rfl⟩
    simp only [tlsHandler, h]
    rfl
  · intro h
    cases hr : r.TLS with
    | none => exact absurd hr h
    | some t => simp only [tlsHandler, hr]

theorem tlsHandler_redirects_or_serves_witness :
    (examplePlainRequest.TLS = none ∧ exampleTLSRequest.TLS ≠ none) ∧
    (∃ u : URL, tlsHandler (fun u => u.Scheme ++ "://" ++ u.Host ++ u.Path) exampleQuiet 5
          examplePlainRequest =
        [.Redirect 5 examplePlainRequest
          ((fun u => u.Scheme ++ "://" ++ u.Host ++ u.Path) u) 301] ∧
        u.Scheme = "https" ∧ u.Host = "example.org:8709" ∧ u.Path = "/a/b") ∧
    tlsHandler (fun u => u.Scheme ++ "://" ++ u.Host ++ u.Path) exampleQuiet 5
        exampleTLSRequest = [.ServeHTTP () 5 exampleTLSRequest] := by
  have h := tlsHandler_redirects_or_serves (fun u => u.Scheme ++ "://" ++ u.Host ++ u.Path)
    exampleQuiet 5 examplePlainRequest
  have k := tlsHandler_redirects_or_serves (fun u => u.Scheme ++ "://" ++ u.Host ++ u.Path)
    exampleQuiet 5 exampleTLSRequest
  obtain ⟨u, h1, h2, h3, h4, -⟩ := h.1 rfl
  exact ⟨⟨rfl, by decide⟩, ⟨u, h1, h2, h3, h4⟩, k.2 (by decide)⟩

/-- C8, as stated, fails: with a missing key file `ListenAndServeTLS` returns the load
failure after it has bound the address: `net.Listen` is the first call, and the listener
it opened has not been closed when the call returns. -/
theorem ListenAndServeTLS_binds_before_loading :
    (ListenAndServeTLS exampleNetNoKey (NewMuxServer "yados" "0.0.0.0:8709" ())
        "server.crt" "server.key").ret =
      .returned (some "open server.key: no such file or directory") ∧
    (ListenAndServeTLS exampleNetNoKey (NewMuxServer "yados" "0.0.0.0:8709" ())
        "server.crt" "server.key").calls =
      [.Listen "tcp" "0.0.0.0:8709", .LoadX509KeyPair "server.crt" "server.key"] ∧
    (ListenAndServeTLS exampleNetNoKey (NewMuxServer "yados" "0.0.0.0:8709" ())
        "server.crt" "server.key").opened =
      [{ addr := "0.0.0.0:8709", closeErr := none, closeCalls := 0 }] := by
  refine ⟨?_, ?_, ?_⟩ <;> rfl

/-- C8, amended: when the address is bound and loading the key pair then fails,
`ListenAndServeTLS` returns the load failure; it has called `net.Listen` and then
`tls.LoadX509KeyPair` and nothing else, so no serve loop has run, and the server is left
as it was, with no listener installed by the call. -/
theorem ListenAndServeTLS_load_failure {H : Type} (net : Net) (ms : MuxServer H)
    (certFile keyFile : String) (listener : Listener) (err : Error)
    (hb : net.Listen "tcp" ms.Addr = .ok listener)
    (hk : net.LoadX509KeyPair certFile keyFile = .error err) :
    (ListenAndServeTLS net ms certFile keyFile).ret = .returned (some err) ∧
    (ListenAndServeTLS net ms certFile keyFile).calls =
      [.Listen "tcp" ms.Addr, .LoadX509KeyPair certFile keyFile] ∧
    (ListenAndServeTLS net ms certFile keyFile).ms = ms := by
  have h : ListenAndServeTLS net ms certFile keyFile =
      ⟨.returned (some err), ms,
        [.Listen "tcp" ms.Addr, .LoadX509KeyPair certFile keyFile], [listener]⟩ := by
    simp only [ListenAndServeTLS, hb, hk]
  rw [h]
  exact ⟨rfl, rfl, rfl⟩

theorem ListenAndServeTLS_load_failure_witness :
    (exampleNetNoKey.Listen "tcp" exampleQuiet.Addr =
        .ok { addr := "0.0.0.0:8709", closeErr := none, closeCalls := 0 } ∧
      exampleNetNoKey.LoadX509KeyPair "server.crt" "server.key" =
        .error "open server.key: no such file or directory") ∧
    (ListenAndServeTLS exampleNetNoKey exampleQuiet "server.crt" "server.key").ret =
      .returned (some "open server.key: no such file or directory") ∧
    (ListenAndServeTLS exampleNetNoKey exampleQuiet "server.crt" "server.key").calls =
      [.Listen "tcp" exampleQuiet.Addr, .LoadX509KeyPair "server.crt" "server.key"] ∧
    (ListenAndServeTLS exampleNetNoKey exampleQuiet "server.crt" "server.key").ms =
      exampleQuiet :=
  ⟨⟨rfl, rfl⟩, ListenAndServeTLS_load_failure exampleNetNoKey exampleQuiet "server.crt"
    "server.key" _ _ rfl rfl⟩

end Yados
